import Mathlib

/-!
Shallow embedding of src/py/ellipse.py (superellipse sampling and Perlin-noise
radial displacement).  Floating-point arithmetic is embedded as real arithmetic;
numpy's undefined 0/0 (NaN) and out-of-bounds fancy indexing are made explicit
with an error type.  The noise field produced by the external generator is an
arbitrary function on resolved (in-range) indices.
-/

namespace Ellipse

/-- Embedding of np.sign (used at lines 12-13): sign of a real, with sign 0 = 0. -/
noncomputable def sgn (v : ℝ) : ℝ := if 0 < v then 1 else if v < 0 then -1 else 0

/-- Line 12, parametric form: x(t) = |cos t|^(2/p) * sign(cos t) * a. -/
noncomputable def xCoord (A P T : ℝ) : ℝ := |Real.cos T| ^ (2 / P) * sgn (Real.cos T) * A

/-- Line 13, parametric form: y(t) = |sin t|^(2/p) * sign(sin t) * b. -/
noncomputable def yCoord (B P T : ℝ) : ℝ := |Real.sin T| ^ (2 / P) * sgn (Real.sin T) * B

/-- Line 6: sample count of np.linspace(0, 2*pi, 50000). -/
def N : ℕ := 50000

/-- Line 6: the i-th sample of np.linspace(0, 2*pi, N) (inclusive endpoints). -/
noncomputable def t (i : ℕ) : ℝ := 2 * Real.pi * i / ((N : ℝ) - 1)

/-- Line 7. -/
def a : ℝ := 1

/-- Line 8. -/
noncomputable def b : ℝ := 1.5

/-- Line 9. -/
def p : ℝ := 6

/-- Line 20: side length of the noise field. -/
def R : ℕ := 512

/-- Line 29 (cx = 0). -/
def cx : ℝ := 0

/-- Line 30 (cy = 0). -/
def cy : ℝ := 0

/-- Line 35: the fixed intensity constant 0.05. -/
noncomputable def k : ℝ := 0.05

/-- Line 12 at the program's parameters: the ideal x coordinates. -/
noncomputable def x (i : ℕ) : ℝ := xCoord a p (t i)

/-- Line 13 at the program's parameters: the ideal y coordinates. -/
noncomputable def y (i : ℕ) : ℝ := yCoord b p (t i)

/-- Line 17: idealx = x.copy(), taken before any mutation of x. -/
noncomputable def idealx (i : ℕ) : ℝ := x i

/-- Line 18: idealy = y.copy(). -/
noncomputable def idealy (i : ℕ) : ℝ := y i

/-- astype(np.int) (lines 31-32): C-style truncation toward zero. -/
noncomputable def truncZ (v : ℝ) : ℤ := if 0 ≤ v then ⌊v⌋ else ⌈v⌉

/-- Lines 31-32: map a coordinate to a noise-field index, v * (R-1) / B truncated. -/
noncomputable def mapIdxB (B v : ℝ) : ℤ := truncZ (v * ((R : ℝ) - 1) / B)

/-- Line 31: X = (x * (R-1) / b).astype(np.int). -/
noncomputable def X (i : ℕ) : ℤ := mapIdxB b (x i)

/-- Line 32: Y = (y * (R-1) / b).astype(np.int). -/
noncomputable def Y (i : ℕ) : ℤ := mapIdxB b (y i)

/-- Line 33: d = sqrt((X-cx)^2 + (Y-cy)^2). -/
noncomputable def d (i : ℕ) : ℝ :=
  Real.sqrt ((((X i : ℝ)) - cx) ^ 2 + (((Y i : ℝ)) - cy) ^ 2)

/-- numpy integer indexing into axis of length n: indices in [0, n) are used
directly, indices in [-n, 0) are resolved from the end (wrap-around), anything
else raises IndexError (modelled as none). -/
def npIndex (n : ℕ) (i : ℤ) : Option ℤ :=
  if 0 ≤ i ∧ i < (n : ℤ) then some i
  else if -(n : ℤ) ≤ i ∧ i < 0 then some (i + (n : ℤ))
  else none

/-- The index an in-bounds numpy lookup actually reads from. -/
def wrapIdx (n : ℕ) (i : ℤ) : ℤ := if i < 0 then i + (n : ℤ) else i

/-- Line 35: noise[X, Y] for one element pair, with numpy index semantics. -/
def npLookup (n : ℕ) (f : ℤ → ℤ → ℝ) (i j : ℤ) : Option ℝ :=
  match npIndex n i, npIndex n j with
  | some i2, some j2 => some (f i2 j2)
  | _, _ => none

/-- Failure modes of the displacement step: an out-of-bounds noise lookup
(IndexError at line 35), or the undefined 0/0 division at line 34 when d = 0
(numpy produces NaN; we keep it explicit instead of a junk value). -/
inductive NpErr where
  | indexOutOfRange
  | nan

/-- Lines 31-35 for a single sample with coordinates (xv, yv): map to indices,
look up the noise value, form the radial direction (X-cx, Y-cy)/d and scale by
the noise value and the 0.05 intensity.  The division is undefined when d = 0. -/
noncomputable def dispPointB (B : ℝ) (f : ℤ → ℤ → ℝ) (xv yv : ℝ) : Except NpErr (ℝ × ℝ) :=
  let Xi := mapIdxB B xv
  let Yi := mapIdxB B yv
  let dv := Real.sqrt ((((Xi : ℝ)) - cx) ^ 2 + (((Yi : ℝ)) - cy) ^ 2)
  match npLookup R f Xi Yi with
  | none => Except.error NpErr.indexOutOfRange
  | some v =>
    if dv = 0 then Except.error NpErr.nan
    else Except.ok ((((Xi : ℝ) - cx) / dv) * v * k, (((Yi : ℝ) - cy) / dv) * v * k)

/-- The displacement of program sample i (lines 33-35 applied to the arrays). -/
noncomputable def disp (f : ℤ → ℤ → ℝ) (i : ℕ) : Except NpErr (ℝ × ℝ) :=
  dispPointB b f (x i) (y i)

/-- Lines 36-37 for sample i: the working point after x += nc[0]; y += nc[1]. -/
noncomputable def workingPoint (f : ℤ → ℤ → ℝ) (i : ℕ) : Except NpErr (ℝ × ℝ) :=
  (disp f i).map (fun q => (idealx i + q.1, idealy i + q.2))

/- Basic facts about sgn. -/

theorem sgn_zero : sgn 0 = 0 := by
  unfold sgn
  norm_num

theorem abs_sgn_le (v : ℝ) : |sgn v| ≤ 1 := by
  unfold sgn
  split_ifs <;> norm_num

theorem abs_sgn_of_ne (v : ℝ) (hv : v ≠ 0) : |sgn v| = 1 := by
  unfold sgn
  rcases lt_trichotomy v 0 with h | h | h
  · rw [if_neg (by linarith), if_pos h]
    norm_num
  · exact absurd h hv
  · rw [if_pos h]
    norm_num

theorem sgn_of_neg (v : ℝ) (hv : v < 0) : sgn v = -1 := by
  unfold sgn
  rw [if_neg (by linarith), if_pos hv]

/- Numeric values of the program constants. -/

theorem b_eq : b = 3 / 2 := by norm_num [b]

theorem k_eq : k = 1 / 20 := by norm_num [k]

theorem k_nonneg : 0 ≤ k := by rw [k_eq]; norm_num

theorem R_real : (R : ℝ) - 1 = 511 := by norm_num [R]

theorem two_div_p : 2 / p = 1 / 3 := by norm_num [p]

/- Coordinate bounds: the sampled coordinates are bounded by the semi-axes. -/

theorem abs_xCoord_le (A P T : ℝ) (hP : 0 < P) : |xCoord A P T| ≤ |A| := by
  unfold xCoord
  rw [abs_mul, abs_mul]
  have h1 : |(|Real.cos T| ^ (2 / P))| ≤ 1 := by
    rw [abs_of_nonneg (Real.rpow_nonneg (abs_nonneg _) _)]
    exact Real.rpow_le_one (abs_nonneg _) (Real.abs_cos_le_one T)
      (div_nonneg (by norm_num) hP.le)
  have h2 : |sgn (Real.cos T)| ≤ 1 := abs_sgn_le _
  have h3 : |(|Real.cos T| ^ (2 / P))| * |sgn (Real.cos T)| ≤ 1 := by
    calc |(|Real.cos T| ^ (2 / P))| * |sgn (Real.cos T)| ≤ 1 * 1 :=
          mul_le_mul h1 h2 (abs_nonneg _) zero_le_one
      _ = 1 := by norm_num
  exact mul_le_of_le_one_left (abs_nonneg A) h3

theorem abs_yCoord_le (B P T : ℝ) (hP : 0 < P) : |yCoord B P T| ≤ |B| := by
  unfold yCoord
  rw [abs_mul, abs_mul]
  have h1 : |(|Real.sin T| ^ (2 / P))| ≤ 1 := by
    rw [abs_of_nonneg (Real.rpow_nonneg (abs_nonneg _) _)]
    exact Real.rpow_le_one (abs_nonneg _) (Real.abs_sin_le_one T)
      (div_nonneg (by norm_num) hP.le)
  have h2 : |sgn (Real.sin T)| ≤ 1 := abs_sgn_le _
  have h3 : |(|Real.sin T| ^ (2 / P))| * |sgn (Real.sin T)| ≤ 1 := by
    calc |(|Real.sin T| ^ (2 / P))| * |sgn (Real.sin T)| ≤ 1 * 1 :=
          mul_le_mul h1 h2 (abs_nonneg _) zero_le_one
      _ = 1 := by norm_num
  exact mul_le_of_le_one_left (abs_nonneg B) h3

theorem abs_x_le (i : ℕ) : |x i| ≤ 1 := by
  have h := abs_xCoord_le a p (t i) (by norm_num [p])
  simpa [a] using h

theorem abs_y_le (i : ℕ) : |y i| ≤ 3 / 2 := by
  have h := abs_yCoord_le b p (t i) (by norm_num [p])
  calc |y i| ≤ |b| := h
    _ = 3 / 2 := by rw [b_eq]; norm_num

/- Truncation toward zero never increases the absolute value. -/

theorem abs_truncZ_cast_le (v : ℝ) : (|truncZ v| : ℝ) ≤ |v| := by
  unfold truncZ
  split_ifs with hv
  · have h0 : (0 : ℝ) ≤ ((⌊v⌋ : ℤ) : ℝ) := by
      exact_mod_cast Int.floor_nonneg.mpr hv
    rw [abs_of_nonneg h0, abs_of_nonneg hv]
    exact Int.floor_le v
  · push_neg at hv
    have h0 : ((⌈v⌉ : ℤ) : ℝ) ≤ 0 := by
      exact_mod_cast Int.ceil_le.mpr (by exact_mod_cast hv.le : v ≤ ((0 : ℤ) : ℝ))
    rw [abs_of_nonpos h0, abs_of_neg hv]
    have := Int.le_ceil v
    linarith

/- Index bounds for the program's X and Y arrays. -/

theorem abs_X_le (i : ℕ) : |X i| ≤ 511 := by
  have hx := abs_x_le i
  have hz : |x i * ((R : ℝ) - 1) / b| ≤ 1022 / 3 := by
    rw [R_real, b_eq, abs_div, abs_mul]
    rw [abs_of_nonneg (by norm_num : (0:ℝ) ≤ (511:ℝ)), abs_of_nonneg (by norm_num : (0:ℝ) ≤ (3/2:ℝ))]
    rw [div_le_iff₀ (by norm_num : (0:ℝ) < 3/2)]
    nlinarith [abs_nonneg (x i)]
  have h1 : (|X i| : ℝ) ≤ 1022 / 3 := le_trans (abs_truncZ_cast_le _) hz
  have h2 : (|X i| : ℝ) ≤ (511 : ℝ) := le_trans h1 (by norm_num)
  exact_mod_cast h2

theorem abs_Y_le (i : ℕ) : |Y i| ≤ 511 := by
  have hy := abs_y_le i
  have hz : |y i * ((R : ℝ) - 1) / b| ≤ 511 := by
    rw [R_real, b_eq, abs_div, abs_mul]
    rw [abs_of_nonneg (by norm_num : (0:ℝ) ≤ (511:ℝ)), abs_of_nonneg (by norm_num : (0:ℝ) ≤ (3/2:ℝ))]
    rw [div_le_iff₀ (by norm_num : (0:ℝ) < 3/2)]
    nlinarith [abs_nonneg (y i)]
  have h1 : (|Y i| : ℝ) ≤ (511 : ℝ) := le_trans (abs_truncZ_cast_le _) hz
  exact_mod_cast h1

/- numpy index resolution on in-range indices. -/

theorem npIndex_of_abs_le (n : ℕ) (i : ℤ) (h : |i| ≤ (n : ℤ) - 1) :
    npIndex n i = some (wrapIdx n i) := by
  unfold npIndex wrapIdx
  rcases abs_le.mp h with ⟨hlo, hhi⟩
  rcases le_or_lt 0 i with hi | hi
  · rw [if_pos ⟨hi, by omega⟩, if_neg (by omega : ¬ i < 0)]
  · rw [if_neg (by omega : ¬ (0 ≤ i ∧ i < (n : ℤ))), if_pos ⟨by omega, hi⟩, if_pos hi]

theorem npIndex_X (i : ℕ) : npIndex R (X i) = some (wrapIdx R (X i)) :=
  npIndex_of_abs_le R (X i)
    (by rw [show ((R : ℤ) - 1) = 511 from by norm_num [R]]; exact abs_X_le i)

theorem npIndex_Y (i : ℕ) : npIndex R (Y i) = some (wrapIdx R (Y i)) :=
  npIndex_of_abs_le R (Y i)
    (by rw [show ((R : ℤ) - 1) = 511 from by norm_num [R]]; exact abs_Y_le i)

theorem npLookup_XY (i : ℕ) (f : ℤ → ℤ → ℝ) :
    npLookup R f (X i) (Y i) = some (f (wrapIdx R (X i)) (wrapIdx R (Y i))) := by
  unfold npLookup
  rw [npIndex_X i, npIndex_Y i]

/- Superellipse membership machinery. -/

theorem signedPow_memb (u P : ℝ) (hP : 0 < P) : |(|u| ^ (2 / P) * sgn u)| ^ P = u ^ 2 := by
  by_cases hu : u = 0
  · subst hu
    rw [show sgn 0 = 0 from sgn_zero, mul_zero, abs_zero, Real.zero_rpow hP.ne']
    norm_num
  · rw [abs_mul, abs_sgn_of_ne u hu, mul_one,
      abs_of_nonneg (Real.rpow_nonneg (abs_nonneg u) _),
      ← Real.rpow_mul (abs_nonneg u), div_mul_cancel₀ 2 hP.ne',
      show (2 : ℝ) = ((2 : ℕ) : ℝ) from by norm_num, Real.rpow_natCast, sq_abs]

/-- C4: for every t and all valid parameters a, b > 0, p > 0, the sampled point
satisfies the superellipse membership equation |x(t)/a|^p + |y(t)/b|^p = 1
exactly in real arithmetic. -/
theorem superellipse_membership (A B P T : ℝ) (hA : 0 < A) (hB : 0 < B) (hP : 0 < P) :
    |xCoord A P T / A| ^ P + |yCoord B P T / B| ^ P = 1 := by
  unfold xCoord yCoord
  rw [mul_div_assoc, div_self hA.ne', mul_one, mul_div_assoc, div_self hB.ne', mul_one,
    signedPow_memb _ _ hP, signedPow_memb _ _ hP]
  exact Real.cos_sq_add_sin_sq T

/-- Witness for C4 at a = 1, b = 3/2, p = 6, t = 0. -/
theorem superellipse_membership_witness :
    |xCoord 1 6 0 / 1| ^ (6 : ℝ) + |yCoord (3 / 2) 6 0 / (3 / 2)| ^ (6 : ℝ) = 1 :=
  superellipse_membership 1 (3 / 2) 6 0 (by norm_num) (by norm_num) (by norm_num)

/-- C6: for every valid p > 0 the sampler output is well defined and bounded
(the real-arithmetic rendering of finiteness: no NaN and no Inf can be denoted);
sign 0 = 0, so a sample with cos t = 0 or sin t = 0 yields a zero coordinate
rather than an undefined value, and every coordinate is bounded by the
corresponding semi-axis. -/
theorem sampler_outputs_bounded_sign_zero (A B P T : ℝ) (hP : 0 < P) :
    sgn 0 = 0 ∧ (Real.cos T = 0 → xCoord A P T = 0) ∧ (Real.sin T = 0 → yCoord B P T = 0) ∧
    |xCoord A P T| ≤ |A| ∧ |yCoord B P T| ≤ |B| := by
  refine ⟨sgn_zero, ?_, ?_, abs_xCoord_le A P T hP, abs_yCoord_le B P T hP⟩
  · intro h
    unfold xCoord
    rw [h, sgn_zero, mul_zero, zero_mul]
  · intro h
    unfold yCoord
    rw [h, sgn_zero, mul_zero, zero_mul]

/-- Witness for C6 at a = 1, b = 3/2, p = 6, t = pi/2 (where cos t = 0). -/
theorem sampler_outputs_bounded_sign_zero_witness :
    sgn 0 = 0 ∧
    (Real.cos (Real.pi / 2) = 0 → xCoord 1 6 (Real.pi / 2) = 0) ∧
    (Real.sin (Real.pi / 2) = 0 → yCoord (3 / 2) 6 (Real.pi / 2) = 0) ∧
    |xCoord 1 6 (Real.pi / 2)| ≤ |(1 : ℝ)| ∧
    |yCoord (3 / 2) 6 (Real.pi / 2)| ≤ |(3 / 2 : ℝ)| :=
  sampler_outputs_bounded_sign_zero 1 (3 / 2) 6 (Real.pi / 2) (by norm_num)

/- Closure of the ideal curve (C7). -/

theorem t_zero : t 0 = 0 := by
  unfold t
  norm_num

theorem t_last : t 49999 = 2 * Real.pi := by
  unfold t N
  rw [show (((50000 : ℕ) : ℝ) - 1) = 49999 from by norm_num]
  rw [mul_div_assoc, show ((49999 : ℕ) : ℝ) / (49999 : ℝ) = 1 from by norm_num, mul_one]

/-- C7: the ideal curve is closed: since t spans 0 to 2*pi inclusive, the first
and the last sample coincide exactly in real arithmetic. -/
theorem curve_closed : x 49999 = x 0 ∧ y 49999 = y 0 := by
  constructor
  · unfold x xCoord
    rw [t_last, t_zero, Real.cos_two_pi, Real.cos_zero]
  · unfold y yCoord
    rw [t_last, t_zero, Real.sin_two_pi, Real.sin_zero]

/- No sample maps to the center cell (0, 0): cos and sin cannot both be tiny. -/

theorem truncZ_eq_zero_abs_lt (v : ℝ) (h : truncZ v = 0) : |v| < 1 := by
  unfold truncZ at h
  split_ifs at h with hv
  · rw [abs_of_nonneg hv]
    have := (Int.floor_eq_iff.mp h).2
    push_cast at this
    linarith
  · push_neg at hv
    rw [abs_of_neg hv]
    have := (Int.ceil_eq_iff.mp h).1
    push_cast at this
    linarith

theorem signedPow_abs_lt (u ε : ℝ) (hε : 0 < ε)
    (h : |u| ^ ((1 : ℝ) / 3) * |sgn u| < ε) : |u| < ε ^ 3 := by
  by_cases hu : u = 0
  · subst hu
    rw [abs_zero]
    positivity
  · rw [abs_sgn_of_ne u hu, mul_one] at h
    have hcube : (|u| ^ ((1 : ℝ) / 3)) ^ (3 : ℕ) = |u| := by
      rw [← Real.rpow_natCast (|u| ^ ((1 : ℝ) / 3)) 3, ← Real.rpow_mul (abs_nonneg u)]
      norm_num
    calc |u| = (|u| ^ ((1 : ℝ) / 3)) ^ (3 : ℕ) := hcube.symm
      _ < ε ^ (3 : ℕ) := by
          exact pow_lt_pow_left₀ h (Real.rpow_nonneg (abs_nonneg u) _) (by norm_num)
      _ = ε ^ 3 := by norm_num

theorem abs_x_idx_arg (i : ℕ) : x i * ((R : ℝ) - 1) / b = x i * (1022 / 3) := by
  rw [R_real, b_eq]
  ring

theorem abs_y_idx_arg (i : ℕ) : y i * ((R : ℝ) - 1) / b = y i * (1022 / 3) := by
  rw [R_real, b_eq]
  ring

theorem x_as_signedPow (i : ℕ) :
    x i = |Real.cos (t i)| ^ ((1 : ℝ) / 3) * sgn (Real.cos (t i)) := by
  unfold x xCoord
  rw [two_div_p, a, mul_one]

theorem y_as_signedPow (i : ℕ) :
    y i = |Real.sin (t i)| ^ ((1 : ℝ) / 3) * sgn (Real.sin (t i)) * (3 / 2) := by
  unfold y yCoord
  rw [two_div_p, b_eq]

theorem not_center (i : ℕ) : ¬ (X i = 0 ∧ Y i = 0) := by
  rintro ⟨hX, hY⟩
  have hx1 : |x i * (1022 / 3)| < 1 := by
    have := truncZ_eq_zero_abs_lt _ hX
    rwa [show (X i = truncZ (x i * ((R : ℝ) - 1) / b)) from rfl, abs_x_idx_arg] at *
  have hy1 : |y i * (1022 / 3)| < 1 := by
    have := truncZ_eq_zero_abs_lt _ hY
    rwa [show (Y i = truncZ (y i * ((R : ℝ) - 1) / b)) from rfl, abs_y_idx_arg] at *
  rw [abs_mul, abs_of_nonneg (by norm_num : (0:ℝ) ≤ 1022 / 3)] at hx1 hy1
  have hxa : |x i| < 3 / 1022 := by nlinarith [abs_nonneg (x i)]
  have hya : |y i| < 3 / 1022 := by nlinarith [abs_nonneg (y i)]
  have hx2 : |Real.cos (t i)| ^ ((1 : ℝ) / 3) * |sgn (Real.cos (t i))| = |x i| := by
    rw [x_as_signedPow, abs_mul, abs_of_nonneg (Real.rpow_nonneg (abs_nonneg _) _)]
  have hy2 : |Real.sin (t i)| ^ ((1 : ℝ) / 3) * |sgn (Real.sin (t i))| * (3 / 2) = |y i| := by
    rw [y_as_signedPow, abs_mul, abs_mul,
      abs_of_nonneg (Real.rpow_nonneg (abs_nonneg _) _),
      abs_of_nonneg (by norm_num : (0:ℝ) ≤ 3 / 2)]
  have hcos : |Real.cos (t i)| < (3 / 1022) ^ 3 := by
    apply signedPow_abs_lt _ _ (by norm_num)
    rw [hx2]
    exact hxa
  have hsin : |Real.sin (t i)| < (1 / 511) ^ 3 := by
    apply signedPow_abs_lt _ _ (by norm_num : (0:ℝ) < 1 / 511)
    linarith
  have hone := Real.cos_sq_add_sin_sq (t i)
  nlinarith [sq_abs (Real.cos (t i)), sq_abs (Real.sin (t i)),
    abs_nonneg (Real.cos (t i)), abs_nonneg (Real.sin (t i)),
    sq_nonneg (|Real.cos (t i)|), sq_nonneg (|Real.sin (t i)|)]

theorem one_le_sq_sum (i : ℕ) : (1 : ℤ) ≤ (X i) ^ 2 + (Y i) ^ 2 := by
  have h := not_center i
  rcases eq_or_ne (X i) 0 with hX | hX
  · rcases eq_or_ne (Y i) 0 with hY | hY
    · exact absurd ⟨hX, hY⟩ h
    · have : (1 : ℤ) ≤ |Y i| := Int.one_le_abs hY
      nlinarith [sq_nonneg (X i), sq_abs (Y i)]
  · have : (1 : ℤ) ≤ |X i| := Int.one_le_abs hX
    nlinarith [sq_nonneg (Y i), sq_abs (X i)]

theorem one_le_d (i : ℕ) : 1 ≤ d i := by
  unfold d
  have h := one_le_sq_sum i
  have hr : (1 : ℝ) ≤ ((X i : ℝ) - cx) ^ 2 + ((Y i : ℝ) - cy) ^ 2 := by
    rw [show cx = (0 : ℝ) from rfl, show cy = (0 : ℝ) from rfl, sub_zero, sub_zero]
    exact_mod_cast h
  calc (1 : ℝ) = Real.sqrt 1 := Real.sqrt_one.symm
    _ ≤ _ := Real.sqrt_le_sqrt hr

theorem d_ne_zero (i : ℕ) : d i ≠ 0 := by
  have := one_le_d i
  intro h
  rw [h] at this
  linarith

/- The displacement of a program sample always evaluates to a defined pair. -/

theorem disp_eq (f : ℤ → ℤ → ℝ) (i : ℕ) :
    disp f i = Except.ok
      ((((X i : ℝ) - cx) / d i) * f (wrapIdx R (X i)) (wrapIdx R (Y i)) * k,
       (((Y i : ℝ) - cy) / d i) * f (wrapIdx R (X i)) (wrapIdx R (Y i)) * k) := by
  show dispPointB b f (x i) (y i) = _
  simp only [dispPointB]
  rw [show mapIdxB b (x i) = X i from rfl, show mapIdxB b (y i) = Y i from rfl]
  rw [npLookup_XY i f]
  rw [show Real.sqrt (((X i : ℝ) - cx) ^ 2 + ((Y i : ℝ) - cy) ^ 2) = d i from rfl]
  show (if d i = 0 then Except.error NpErr.nan
    else Except.ok
      ((((X i : ℝ) - cx) / d i) * f (wrapIdx R (X i)) (wrapIdx R (Y i)) * k,
       (((Y i : ℝ) - cy) / d i) * f (wrapIdx R (X i)) (wrapIdx R (Y i)) * k)) = _
  rw [if_neg (d_ne_zero i)]

/-- C10: for the program's fixed parameters no sample maps to the grid cell
(0, 0): the superellipse never passes close enough to the origin for both
truncated indices to vanish, so d i is at least 1 for every sample, the radial
division never divides by zero, and the displacement is never the undefined
NaN value. -/
theorem no_center_sample_div_nonzero (i : ℕ) (f : ℤ → ℤ → ℝ) :
    ¬ (X i = 0 ∧ Y i = 0) ∧ 1 ≤ d i ∧ d i ≠ 0 ∧ disp f i ≠ Except.error NpErr.nan := by
  refine ⟨not_center i, one_le_d i, d_ne_zero i, ?_⟩
  rw [disp_eq]
  simp

/-- C9: for the program's fixed parameters every mapped index satisfies
|X i| and |Y i| bounded by R - 1 = 511, the numpy index resolution succeeds for
both coordinates (negative indices reading from the opposite edge of the field,
i.e. index + R), and the noise-field lookup returns the wrapped entry instead
of failing. -/
theorem index_lookup_total_wrap (i : ℕ) (f : ℤ → ℤ → ℝ) :
    |X i| ≤ 511 ∧ |Y i| ≤ 511 ∧
    npIndex R (X i) = some (wrapIdx R (X i)) ∧
    npIndex R (Y i) = some (wrapIdx R (Y i)) ∧
    npLookup R f (X i) (Y i) = some (f (wrapIdx R (X i)) (wrapIdx R (Y i))) :=
  ⟨abs_X_le i, abs_Y_le i, npIndex_X i, npIndex_Y i, npLookup_XY i f⟩

/-- C1 amended: every mapped index lies in [-(R-1), R-1]; no clamping is
applied and the pipeline never fails with an index error: indices outside
[0, R-1] (the negative ones) are silently looked up through numpy wrap-around
indexing. -/
theorem mapped_indices_range_wrap (i : ℕ) (f : ℤ → ℤ → ℝ) :
    -511 ≤ X i ∧ X i ≤ 511 ∧ -511 ≤ Y i ∧ Y i ≤ 511 ∧
    (npLookup R f (X i) (Y i)).isSome = true := by
  have hX := abs_le.mp (abs_X_le i)
  have hY := abs_le.mp (abs_Y_le i)
  refine ⟨hX.1, hX.2, hY.1, hY.2, ?_⟩
  rw [npLookup_XY i f]
  rfl

/- Displacement bound (C5): the radial direction is a unit vector. -/

theorem abs_X_sub_cx_le_d (i : ℕ) : |(X i : ℝ) - cx| ≤ d i := by
  unfold d
  rw [show cx = (0 : ℝ) from rfl, show cy = (0 : ℝ) from rfl, sub_zero, sub_zero]
  calc |(X i : ℝ)| = Real.sqrt ((X i : ℝ) ^ 2) := (Real.sqrt_sq_eq_abs _).symm
    _ ≤ _ := Real.sqrt_le_sqrt (by nlinarith [sq_nonneg ((Y i : ℝ))])

theorem abs_Y_sub_cy_le_d (i : ℕ) : |(Y i : ℝ) - cy| ≤ d i := by
  unfold d
  rw [show cx = (0 : ℝ) from rfl, show cy = (0 : ℝ) from rfl, sub_zero, sub_zero]
  calc |(Y i : ℝ)| = Real.sqrt ((Y i : ℝ) ^ 2) := (Real.sqrt_sq_eq_abs _).symm
    _ ≤ _ := Real.sqrt_le_sqrt (by nlinarith [sq_nonneg ((X i : ℝ))])

/-- C5: for every sample the per-coordinate displacement applied by the noise
displacer is bounded by k times any bound on the noise values: if every noise
entry has absolute value at most M then |working.x i - ideal.x i| is at most
k * M, and likewise for y. -/
theorem displacement_bounded (i : ℕ) (f : ℤ → ℤ → ℝ) (M wx wy : ℝ)
    (hM : ∀ u v : ℤ, |f u v| ≤ M) (h : workingPoint f i = Except.ok (wx, wy)) :
    |wx - idealx i| ≤ k * M ∧ |wy - idealy i| ≤ k * M := by
  have hM0 : 0 ≤ M := le_trans (abs_nonneg _) (hM 0 0)
  have hd : 0 < d i := lt_of_lt_of_le one_pos (one_le_d i)
  unfold workingPoint at h
  rw [disp_eq f i] at h
  simp only [Except.map, Except.ok.injEq, Prod.mk.injEq] at h
  have hvM : |f (wrapIdx R (X i)) (wrapIdx R (Y i))| ≤ M := hM _ _
  have hdirx : |((X i : ℝ) - cx) / d i| ≤ 1 := by
    rw [abs_div, abs_of_pos hd, div_le_one hd]
    exact abs_X_sub_cx_le_d i
  have hdiry : |((Y i : ℝ) - cy) / d i| ≤ 1 := by
    rw [abs_div, abs_of_pos hd, div_le_one hd]
    exact abs_Y_sub_cy_le_d i
  constructor
  · have e1 : wx - idealx i =
        ((X i : ℝ) - cx) / d i * f (wrapIdx R (X i)) (wrapIdx R (Y i)) * k := by
      rw [← h.1]
      ring
    rw [e1, abs_mul, abs_mul, abs_of_nonneg k_nonneg]
    nlinarith [mul_le_mul hdirx hvM (abs_nonneg _) zero_le_one, k_nonneg,
      abs_nonneg (((X i : ℝ) - cx) / d i),
      abs_nonneg (f (wrapIdx R (X i)) (wrapIdx R (Y i)))]
  · have e2 : wy - idealy i =
        ((Y i : ℝ) - cy) / d i * f (wrapIdx R (X i)) (wrapIdx R (Y i)) * k := by
      rw [← h.2]
      ring
    rw [e2, abs_mul, abs_mul, abs_of_nonneg k_nonneg]
    nlinarith [mul_le_mul hdiry hvM (abs_nonneg _) zero_le_one, k_nonneg,
      abs_nonneg (((Y i : ℝ) - cy) / d i),
      abs_nonneg (f (wrapIdx R (X i)) (wrapIdx R (Y i)))]

/-- Witness for C5: sample 0 with the all-zero noise field and bound M = 0. -/
theorem displacement_bounded_witness :
    workingPoint (fun _ _ => (0 : ℝ)) 0 = Except.ok (idealx 0, idealy 0) ∧
    |idealx 0 - idealx 0| ≤ k * 0 ∧ |idealy 0 - idealy 0| ≤ k * 0 := by
  have hw : workingPoint (fun _ _ => (0 : ℝ)) 0 = Except.ok (idealx 0, idealy 0) := by
    unfold workingPoint
    rw [disp_eq]
    simp [Except.map]
  have hc := displacement_bounded 0 (fun _ _ => (0 : ℝ)) 0 (idealx 0) (idealy 0)
    (fun u v => by norm_num) hw
  exact ⟨hw, hc.1, hc.2⟩

/- The sample at i = 25000 (t slightly past pi) has a negative X index. -/

theorem t_25000 : t 25000 = Real.pi + Real.pi / 49999 := by
  unfold t N
  rw [show (((50000 : ℕ) : ℝ) - 1) = 49999 from by norm_num,
    show ((25000 : ℕ) : ℝ) = 25000 from by norm_num]
  field_simp
  ring

theorem cos_t25000_le : Real.cos (t 25000) ≤ -(1 / 2) := by
  rw [t_25000]
  have h1 : Real.cos (Real.pi + Real.pi / 49999) = -Real.cos (Real.pi / 49999) := by
    rw [Real.cos_add, Real.cos_pi, Real.sin_pi]
    ring
  rw [h1]
  have h2 : (1 : ℝ) / 2 ≤ Real.cos (Real.pi / 49999) := by
    rw [← Real.cos_pi_div_three]
    apply Real.cos_le_cos_of_nonneg_of_le_pi
    · positivity
    · linarith [Real.pi_pos]
    · rw [div_le_div_iff₀ (by norm_num) (by norm_num)]
      nlinarith [Real.pi_pos]
  linarith

theorem x_25000_le : x 25000 ≤ -(1 / 2) := by
  have hc := cos_t25000_le
  have hcneg : Real.cos (t 25000) < 0 := by linarith
  rw [x_as_signedPow 25000, sgn_of_neg _ hcneg, mul_neg_one]
  have h1 : (1 : ℝ) / 2 ≤ |Real.cos (t 25000)| := by
    rw [abs_of_neg hcneg]
    linarith
  have h3 : (1 : ℝ) / 2 ≤ |Real.cos (t 25000)| ^ ((1 : ℝ) / 3) := by
    have h0 : (0 : ℝ) < |Real.cos (t 25000)| := by linarith
    have hm := Real.rpow_le_rpow_of_exponent_ge h0 (Real.abs_cos_le_one _)
      (by norm_num : (1 : ℝ) / 3 ≤ 1)
    rw [Real.rpow_one] at hm
    linarith
  linarith

theorem X_25000_neg : X 25000 < 0 := by
  have hx := x_25000_le
  show mapIdxB b (x 25000) < 0
  unfold mapIdxB
  have hz : x 25000 * ((R : ℝ) - 1) / b ≤ -1 := by
    rw [abs_x_idx_arg]
    nlinarith
  unfold truncZ
  rw [if_neg (by linarith : ¬ (0 : ℝ) ≤ x 25000 * ((R : ℝ) - 1) / b)]
  have hc : ⌈x 25000 * ((R : ℝ) - 1) / b⌉ ≤ -1 := by
    apply Int.ceil_le.mpr
    push_cast
    linarith
  omega

/-- C1 counterexample: at sample 25000 the mapped X index is negative, hence
outside [0, R-1], yet the noise lookup does not fail: the value is silently
read through numpy wrap-around indexing. -/
theorem negative_index_wraps_silently :
    X 25000 < 0 ∧
    npLookup R (fun _ _ => (0 : ℝ)) (X 25000) (Y 25000) = some 0 :=
  ⟨X_25000_neg, npLookup_XY 25000 (fun _ _ => (0 : ℝ))⟩

/- Degenerate samples: a point mapping to the center cell gives an undefined
(NaN) displacement, because lines 33-35 divide by d = 0 without special-casing. -/

theorem mapIdxB_zero : mapIdxB b 0 = 0 := by
  unfold mapIdxB truncZ
  rw [zero_mul, zero_div, if_pos le_rfl]
  exact Int.floor_zero

theorem npLookup_center (f : ℤ → ℤ → ℝ) : npLookup R f 0 0 = some (f 0 0) := by
  unfold npLookup npIndex
  rw [if_pos ⟨le_refl (0 : ℤ), by norm_num [R]⟩]

theorem dispPointB_center_eq (f : ℤ → ℤ → ℝ) (xv yv : ℝ)
    (hx : mapIdxB b xv = 0) (hy : mapIdxB b yv = 0) :
    dispPointB b f xv yv = Except.error NpErr.nan := by
  simp only [dispPointB]
  rw [hx, hy, npLookup_center f]
  show (if Real.sqrt ((((0 : ℤ) : ℝ) - cx) ^ 2 + (((0 : ℤ) : ℝ) - cy) ^ 2) = 0
    then Except.error NpErr.nan
    else Except.ok
      (((((0 : ℤ) : ℝ) - cx) / Real.sqrt ((((0 : ℤ) : ℝ) - cx) ^ 2 + (((0 : ℤ) : ℝ) - cy) ^ 2)) * f 0 0 * k,
       ((((0 : ℤ) : ℝ) - cy) / Real.sqrt ((((0 : ℤ) : ℝ) - cx) ^ 2 + (((0 : ℤ) : ℝ) - cy) ^ 2)) * f 0 0 * k)) = _
  have hd : Real.sqrt ((((0 : ℤ) : ℝ) - cx) ^ 2 + (((0 : ℤ) : ℝ) - cy) ^ 2) = 0 := by
    rw [show cx = (0 : ℝ) from rfl, show cy = (0 : ℝ) from rfl]
    norm_num
  rw [if_pos hd]

/-- C3 amended: a sample whose mapped point coincides with the noise-field
center (both indices equal to the center (0,0)) does not get zero displacement:
the code divides by d = 0 without special-casing, so the displacement is the
undefined NaN value.  (For this program's actual samples the case never
arises: see the theorem for C10.) -/
theorem center_sample_nan (f : ℤ → ℤ → ℝ) (xv yv : ℝ)
    (hx : mapIdxB b xv = 0) (hy : mapIdxB b yv = 0) :
    dispPointB b f xv yv = Except.error NpErr.nan :=
  dispPointB_center_eq f xv yv hx hy

/-- Witness for C3's amended theorem at the input point (0, 0). -/
theorem center_sample_nan_witness :
    dispPointB b (fun _ _ => (5 : ℝ)) 0 0 = Except.error NpErr.nan :=
  center_sample_nan (fun _ _ => (5 : ℝ)) 0 0 mapIdxB_zero mapIdxB_zero

/-- C3 counterexample: the input point (0, 0) maps exactly onto the noise-field
center, and the displacer produces the undefined NaN value there, not a zero
displacement: the result is not the ok pair (0, 0). -/
theorem center_sample_not_zero_disp :
    dispPointB b (fun _ _ => (7 : ℝ)) 0 0 = Except.error NpErr.nan ∧
    dispPointB b (fun _ _ => (7 : ℝ)) 0 0 ≠ Except.ok (0, 0) := by
  have h := dispPointB_center_eq (fun _ _ => (7 : ℝ)) 0 0 mapIdxB_zero mapIdxB_zero
  refine ⟨h, ?_⟩
  rw [h]
  simp

/- Whole-script embedding, for the validation-order claim (C2): lines 6-13
produce the coordinate arrays unconditionally, the assert at line 26 runs only
afterwards, and no validation of p exists anywhere. -/

inductive ScriptErr where
  | zeroDivisionError
  | assertionError
  | indexOutOfRange
  | nanSample

/-- The two coordinate arrays that lines 12-13 build once the exponent
division 2/p has succeeded. -/
noncomputable def samplePairs (A B P : ℝ) : List ℝ × List ℝ :=
  ((List.range N).map (fun i => xCoord A P (t i)),
   (List.range N).map (fun i => yCoord B P (t i)))

/-- Lines 6-13: the sampling stage.  The scalar Python division 2/p at line 12
raises ZeroDivisionError when p = 0, before any array exists; for every other
p the stage is unguarded and produces both arrays. -/
noncomputable def sampleStage (A B P : ℝ) : Except ScriptErr (List ℝ × List ℝ) :=
  if P = 0 then Except.error ScriptErr.zeroDivisionError
  else Except.ok (samplePairs A B P)

/-- Lines 31-35 element-wise over a list of coordinate pairs; the vectorized
numpy expression fails if any element's lookup is out of bounds. -/
noncomputable def dispList (B : ℝ) (f : ℤ → ℤ → ℝ) :
    List (ℝ × ℝ) → Except NpErr (List (ℝ × ℝ))
  | [] => Except.ok []
  | q :: rest =>
    match dispPointB B f q.1 q.2, dispList B f rest with
    | Except.ok dq, Except.ok ds => Except.ok (dq :: ds)
    | Except.error e, _ => Except.error e
    | Except.ok _, Except.error e => Except.error e

/-- Lines 31-37 over whole arrays: compute all displacements, then add them
to the coordinate arrays (x += nc[0]; y += nc[1]). -/
noncomputable def displaceListsB (B : ℝ) (f : ℤ → ℤ → ℝ) (xs ys : List ℝ) :
    Except NpErr (List ℝ × List ℝ) :=
  match dispList B f (xs.zip ys) with
  | Except.error e => Except.error e
  | Except.ok ds =>
    Except.ok (List.zipWith (fun u v => u + v) xs (ds.map Prod.fst),
               List.zipWith (fun u v => u + v) ys (ds.map Prod.snd))

/-- The script in source order: at p = 0 the scalar division 2/p at line 12
raises ZeroDivisionError before any array exists; otherwise lines 12-13
produce the arrays samplePairs, lines 17-18 copy the ideal curve, the line-26
assert checks b >= a, and only then lines 29-37 displace.  Returns the working
and the ideal curve. -/
noncomputable def runScript (A B P : ℝ) (f : ℤ → ℤ → ℝ) :
    Except ScriptErr ((List ℝ × List ℝ) × (List ℝ × List ℝ)) :=
  if P = 0 then Except.error ScriptErr.zeroDivisionError
  else if A ≤ B then
    match displaceListsB B f (samplePairs A B P).1 (samplePairs A B P).2 with
    | Except.ok w => Except.ok (w, samplePairs A B P)
    | Except.error NpErr.indexOutOfRange => Except.error ScriptErr.indexOutOfRange
    | Except.error NpErr.nan => Except.error ScriptErr.nanSample
  else Except.error ScriptErr.assertionError

theorem samplePairs_length_fst (A B P : ℝ) : (samplePairs A B P).1.length = N := by
  simp [samplePairs]

theorem samplePairs_length_snd (A B P : ℝ) : (samplePairs A B P).2.length = N := by
  simp [samplePairs]

theorem sampleStage_of_ne (A B P : ℝ) (hP : P ≠ 0) :
    sampleStage A B P = Except.ok (samplePairs A B P) := by
  unfold sampleStage
  rw [if_neg hP]

theorem sampleStage_zero (A B : ℝ) :
    sampleStage A B 0 = Except.error ScriptErr.zeroDivisionError := by
  unfold sampleStage
  rw [if_pos rfl]

/-- C2 amended: no InvalidParameter validation exists.  For every p other than
0 (in particular every p < 0) the sampling stage is unguarded and produces both
length-N coordinate arrays, and with b < a the script then fails at the
line-26 assert, i.e. only after the arrays already exist, and with an
assertion error; at p = 0 the script fails even earlier, with a
ZeroDivisionError from the scalar division 2/p at line 12, again not an
InvalidParameter error. -/
theorem sampling_unguarded (A B P : ℝ) (f : ℤ → ℤ → ℝ) (hP : P ≠ 0) (h : B < A) :
    sampleStage A B P = Except.ok (samplePairs A B P) ∧
    (samplePairs A B P).1.length = N ∧ (samplePairs A B P).2.length = N ∧
    runScript A B P f = Except.error ScriptErr.assertionError ∧
    sampleStage A B 0 = Except.error ScriptErr.zeroDivisionError ∧
    runScript A B 0 f = Except.error ScriptErr.zeroDivisionError := by
  refine ⟨sampleStage_of_ne A B P hP, samplePairs_length_fst A B P,
    samplePairs_length_snd A B P, ?_, sampleStage_zero A B, ?_⟩
  · unfold runScript
    rw [if_neg hP, if_neg (not_le.mpr h)]
  · unfold runScript
    rw [if_pos rfl]

/-- Witness for C2's amended theorem at a = 2, b = 1 and the negative exponent
p = -2 (an invalid p that is nevertheless sampled without any error). -/
theorem sampling_unguarded_witness :
    sampleStage 2 1 (-2) = Except.ok (samplePairs 2 1 (-2)) ∧
    (samplePairs 2 1 (-2)).1.length = N ∧ (samplePairs 2 1 (-2)).2.length = N ∧
    runScript 2 1 (-2) (fun _ _ => (0 : ℝ)) = Except.error ScriptErr.assertionError ∧
    sampleStage 2 1 0 = Except.error ScriptErr.zeroDivisionError ∧
    runScript 2 1 0 (fun _ _ => (0 : ℝ)) = Except.error ScriptErr.zeroDivisionError :=
  sampling_unguarded 2 1 (-2) (fun _ _ => (0 : ℝ)) (by norm_num) (by norm_num)

/-- C2 counterexample: with a = 2.0, b = 1.0 (and the program's p = 6) the
script does fail, but via the line-26 assert, which runs after the sampling
stage: the stage succeeds and both coordinate arrays (of length 50000) exist
before the failure. -/
theorem assert_after_arrays :
    runScript 2 1 6 (fun _ _ => (0 : ℝ)) = Except.error ScriptErr.assertionError ∧
    sampleStage 2 1 6 = Except.ok (samplePairs 2 1 6) ∧
    (samplePairs 2 1 6).1.length = 50000 ∧ (samplePairs 2 1 6).2.length = 50000 := by
  refine ⟨?_, sampleStage_of_ne 2 1 6 (by norm_num), ?_, ?_⟩
  · unfold runScript
    rw [if_neg (by norm_num : (6 : ℝ) ≠ 0), if_neg (by norm_num : ¬ (2 : ℝ) ≤ 1)]
  · simp [samplePairs, N]
  · simp [samplePairs, N]

/- State-passing embedding of the in-place mutation (C8): the displacer updates
only the working arrays x and y; idealx and idealy are untouched. -/

structure CurveState where
  xs : List ℝ
  ys : List ℝ
  idealxs : List ℝ
  idealys : List ℝ

/-- Lines 31-37 as a state transformation: x and y are overwritten with the
displaced values, idealx and idealy are carried through unchanged. -/
noncomputable def displaceState (f : ℤ → ℤ → ℝ) (s : CurveState) : Except NpErr CurveState :=
  match displaceListsB b f s.xs s.ys with
  | Except.ok w => Except.ok ⟨w.1, w.2, s.idealxs, s.idealys⟩
  | Except.error e => Except.error e

/-- The state right after lines 17-18: x, y and their just-taken copies. -/
noncomputable def initState : CurveState :=
  ⟨(samplePairs a b p).1, (samplePairs a b p).2,
   (samplePairs a b p).1, (samplePairs a b p).2⟩

theorem dispList_length (B : ℝ) (f : ℤ → ℤ → ℝ) :
    ∀ (l res : List (ℝ × ℝ)), dispList B f l = Except.ok res → res.length = l.length := by
  intro l
  induction l with
  | nil =>
    intro res h
    simp only [dispList, Except.ok.injEq] at h
    rw [← h]
  | cons q rest ih =>
    intro res h
    simp only [dispList] at h
    cases hd : dispPointB B f q.1 q.2 with
    | error e =>
      rw [hd] at h
      simp at h
    | ok dq =>
      cases ht : dispList B f rest with
      | error e =>
        rw [hd, ht] at h
        simp at h
      | ok ds =>
        rw [hd, ht] at h
        simp only [Except.ok.injEq] at h
        rw [← h]
        simp [ih ds ht]

theorem displaceListsB_ok_lengths (B : ℝ) (f : ℤ → ℤ → ℝ) (xs ys : List ℝ)
    (w : List ℝ × List ℝ) (h : displaceListsB B f xs ys = Except.ok w)
    (hlen : xs.length = ys.length) :
    w.1.length = xs.length ∧ w.2.length = ys.length := by
  unfold displaceListsB at h
  cases hd : dispList B f (xs.zip ys) with
  | error e =>
    rw [hd] at h
    simp at h
  | ok ds =>
    rw [hd] at h
    simp only [Except.ok.injEq] at h
    have hds : ds.length = (xs.zip ys).length := dispList_length B f _ ds hd
    rw [List.length_zip] at hds
    rw [← h]
    constructor
    · simp only [List.length_zipWith, List.length_map, hds]
      omega
    · simp only [List.length_zipWith, List.length_map, hds]
      omega

/-- C8: the displacement step never touches the ideal arrays (frame property),
and it preserves the length of the working arrays, so working and ideal keep
the common length N = 50000 that they have at creation. -/
theorem ideal_frame_preserved (f : ℤ → ℤ → ℝ) (s s2 : CurveState)
    (h : displaceState f s = Except.ok s2) :
    s2.idealxs = s.idealxs ∧ s2.idealys = s.idealys ∧
    (s.xs.length = s.ys.length →
      s2.xs.length = s.xs.length ∧ s2.ys.length = s.ys.length) ∧
    initState.xs.length = N ∧ initState.ys.length = N ∧
    initState.idealxs.length = N ∧ initState.idealys.length = N := by
  unfold displaceState at h
  cases hd : displaceListsB b f s.xs s.ys with
  | error e =>
    rw [hd] at h
    simp at h
  | ok w =>
    rw [hd] at h
    simp only [Except.ok.injEq] at h
    rw [← h]
    refine ⟨rfl, rfl, ?_, ?_, ?_, ?_, ?_⟩
    · intro hlen
      exact displaceListsB_ok_lengths b f s.xs s.ys w hd hlen
    · simp only [initState]
      exact samplePairs_length_fst a b p
    · simp only [initState]
      exact samplePairs_length_snd a b p
    · simp only [initState]
      exact samplePairs_length_fst a b p
    · simp only [initState]
      exact samplePairs_length_snd a b p

/-- Witness for C8: the empty state, where the displacement step succeeds. -/
theorem ideal_frame_preserved_witness :
    (CurveState.mk [] [] [] []).idealxs = (CurveState.mk [] [] [] []).idealxs ∧
    (CurveState.mk [] [] [] []).idealys = (CurveState.mk [] [] [] []).idealys ∧
    ((CurveState.mk [] [] [] []).xs.length = (CurveState.mk [] [] [] []).ys.length →
      (CurveState.mk [] [] [] []).xs.length = (CurveState.mk [] [] [] []).xs.length ∧
      (CurveState.mk [] [] [] []).ys.length = (CurveState.mk [] [] [] []).ys.length) ∧
    initState.xs.length = N ∧ initState.ys.length = N ∧
    initState.idealxs.length = N ∧ initState.idealys.length = N :=
  ideal_frame_preserved (fun _ _ => (0 : ℝ))
    (CurveState.mk [] [] [] []) (CurveState.mk [] [] [] []) rfl

end Ellipse
